import Mathlib

/-!
# CFACBot: the command multiplexer (`multiplexer/mux.go`, `util/util.go`)

A shallow embedding of the command router: the permission checker
(`CheckPermissions`, `util.ArrayContains`), the per-user rate limiter
(`CommandSettings.checkLimit`), the registry (`New`, `Register`,
`RegisterSimple`, ...) and the dispatcher (`Mux.Handle`).

Conventions of the embedding.

* A Go `string` is a byte sequence, `GoString = List UInt8`; `len` is the
  list length and `s[1:]` drops the first byte.
* A Go `int` is a 64-bit two's-complement integer: the usage counters and the
  limit are `Int` values and every addition on them is followed by `wrapInt`.
  Clock readings (nanoseconds) are unbounded integers, one reading per call.
* Library code outside the repository (`strings.ToLower`, `fuzzy.Find`, the
  `go-cache` store, the chat session) is a parameter or is modelled from the
  specification; such definitions say so in their documentation.
* `Mux.Handle` returns the list of effects it performs, in program order,
  together with the rate-limit stores it leaves behind; a run-time panic is
  `none`.
-/

namespace Multiplexer

/-! ## Strings and machine integers -/

/-- A Go string: a sequence of bytes. -/
abbrev GoString := List UInt8

/-- An ASCII literal as a Go string (one byte per character). -/
def str (s : String) : GoString := s.data.map (fun c => c.toNat.toUInt8)

/-- Two's-complement wrap-around of a 64-bit Go `int`. -/
def wrapInt (x : Int) : Int := (x + 2 ^ 63) % 2 ^ 64 - 2 ^ 63

/-- Largest value of a 64-bit Go `int`. -/
def maxInt : Int := 2 ^ 63 - 1

/-! ## The rate-limit store -/

/-- Modelled from the spec: an entry of the rate-limit store (package
`go-cache`, not part of the sources): a usage count that expires at the clock
reading `Expiration`; `Expiration = 0` means it never expires. -/
structure Item where
  Object : Int
  Expiration : Int
deriving DecidableEq, Repr

/-- Modelled from the spec: `Item.Expired` of the missing `go-cache` package,
an entry with an expiry is expired once the clock has passed it. -/
def Item.Expired (it : Item) (now : Int) : Bool :=
  if it.Expiration = 0 then false else decide (now > it.Expiration)

/-- Modelled from the spec: the rate-limit store of one command (a
`*cache.Cache` of the missing `go-cache` package), keyed by user ID, with the
fixed TTL window `defaultExpiration` given to every entry when it is set. -/
structure Cache where
  defaultExpiration : Int
  items : GoString → Option Item

/-- Modelled from the spec: `Cache.Get` of the missing `go-cache` package: the
counter of `k`, absent when there is no entry or its window has elapsed. -/
def Cache.Get (c : Cache) (now : Int) (k : GoString) : Option Int :=
  match c.items k with
  | none => none
  | some it =>
    if it.Expiration > 0 then
      if now > it.Expiration then none else some it.Object
    else some it.Object

/-- Modelled from the spec: `Cache.SetDefault` of the missing `go-cache`
package: (re)seeds the entry of `k` with a fresh TTL window. -/
def Cache.SetDefault (c : Cache) (now : Int) (k : GoString) (x : Int) : Cache :=
  let e : Int := if c.defaultExpiration > 0 then now + c.defaultExpiration else 0
  { c with items := Function.update c.items k (some ⟨x, e⟩) }

/-- Modelled from the spec: `Cache.IncrementInt` of the missing `go-cache`
package: adds `n` to the counter of `k`; an increment on a key with no live
entry is a no-op (the error it returns is dropped by the caller). -/
def Cache.IncrementInt (c : Cache) (now : Int) (k : GoString) (n : Int) : Cache :=
  match c.items k with
  | none => c
  | some it =>
    if it.Expired now then c
    else { c with items := Function.update c.items k (some ⟨wrapInt (it.Object + n), it.Expiration⟩) }

/-- The key has no live entry: it was never set, or its TTL window has elapsed. -/
def Cache.cold (c : Cache) (now : Int) (k : GoString) : Prop :=
  c.items k = none ∨ ∃ it, c.items k = some it ∧ 0 < it.Expiration ∧ it.Expiration < now

/-- The heap of rate-limit stores: `RateLimitDB` pointers are addresses into it. -/
abbrev Stores := Nat → Cache

/-- Type `CommandSettings` of `mux.go`; `RateLimitDB` is a pointer, `none` is `nil`. -/
structure CommandSettings where
  Command : GoString
  HelpText : GoString
  RateLimitMax : Int
  RateLimitDB : Option Nat
deriving DecidableEq, Repr

/-- Function `CommandSettings.checkLimit` of `mux.go` at clock reading `now`: the
verdict and the stores after the call. -/
def checkLimit (cs : CommandSettings) (id : GoString) (now : Int) (σ : Stores) :
    Bool × Stores :=
  match cs.RateLimitDB with
  | none => (true, σ)
  | some a =>
    let c := (σ a).IncrementInt now id 1
    match c.Get now id with
    | none => (true, Function.update σ a (c.SetDefault now id 1))
    | some uses =>
      if uses < wrapInt (cs.RateLimitMax + 1) then (true, Function.update σ a c)
      else (false, Function.update σ a c)

/-- Consecutive calls of `checkLimit` for one user at the clock readings `ts`:
the verdicts, in call order. -/
def checkLimitCalls (cs : CommandSettings) (id : GoString) : List Int → Stores → List Bool
  | [], _ => []
  | t :: ts, σ => (checkLimit cs id t σ).1 :: checkLimitCalls cs id ts (checkLimit cs id t σ).2

/-- An empty store with TTL window `d`. -/
def emptyCache (d : Int) : Cache := ⟨d, fun _ => none⟩

/-- A heap in which every store is empty with a one-minute window (in ns). -/
def emptyStores : Stores := fun _ => emptyCache 60000000000

/-- The settings of the example command of `bot.go` with limit `max`, store at address 0. -/
def exampleSettings (max : Int) : CommandSettings :=
  ⟨str "example", str "Quick one-liner about what the command does", max, some 0⟩

/-! ## Collaborators outside the sources -/

/-- The fields of a `discordgo.Member` that `Handle` reads: `User.ID` and `Roles`. -/
structure Member where
  UserID : GoString
  Roles : List GoString
deriving DecidableEq, Repr

/-- The collaborators of the router: `strings.ToLower`, `fuzzy.Find` (the
matched names, in the matcher's order) and the answer of the platform to
`session.GuildMember guildID userID` (`none` when it returns an error). -/
structure Env where
  ToLower : GoString → GoString
  Find : GoString → List GoString → List GoString
  GuildMember : GoString → GoString → Option Member

/-- The function `strings.Split s sep` for a one-byte separator: the pieces between the
occurrences of `sep`; the empty string gives one empty piece. -/
def Split (s : GoString) (sep : UInt8) : List GoString :=
  match s with
  | [] => [[]]
  | b :: rest =>
    if b = sep then [] :: Split rest sep
    else
      match Split rest sep with
      | [] => [[b]]
      | t :: ts => (b :: t) :: ts

/-- The function `strings.HasPrefix s p`. -/
def HasPrefix (s p : GoString) : Bool :=
  decide (p.length ≤ s.length ∧ s.take p.length = p)

/-- The byte of the space character, the separator of `Handle`. -/
def space : UInt8 := 32

/-! ## Permission checker -/

/-- Function `util.ArrayContains` of `util.go`. -/
def ArrayContains (env : Env) (array : List GoString) (value : GoString) (ignoreCase : Bool) :
    Bool :=
  match array with
  | [] => false
  | e :: rest =>
    let e := if ignoreCase then env.ToLower e else e
    if e = value then true else ArrayContains env rest value ignoreCase

/-- Type `CommandPermissions` of `mux.go`: the three whitelists. -/
structure CommandPermissions where
  UserIDs : List GoString
  RoleIDs : List GoString
  ChanIDs : List GoString
deriving DecidableEq, Repr

/-- Function `CheckPermissions` of `mux.go`. -/
def CheckPermissions (env : Env) (perms : CommandPermissions)
    (userID : GoString) (roleIDs : List GoString) (chanID : GoString) : Bool :=
  if perms.UserIDs.length = 0 ∧ perms.RoleIDs.length = 0 ∧ perms.ChanIDs.length = 0 then true
  else if ArrayContains env perms.UserIDs userID true then true
  else if roleIDs.any (fun id => ArrayContains env perms.RoleIDs id true) then true
  else ArrayContains env perms.ChanIDs chanID true

/-! ## Router state -/

/-- A full command handler (the `Command` interface of `mux.go`): the identity
of the handler value and what its `Settings()` returns. -/
structure Command where
  id : Nat
  Settings : CommandSettings
deriving DecidableEq, Repr

/-- Type `SimpleCommand` of `mux.go`. -/
structure SimpleCommand where
  Command : GoString
  Content : GoString
  HelpText : GoString
deriving DecidableEq, Repr

/-- Type `ErrorTexts` of `mux.go`. -/
structure ErrorTexts where
  CommandNotFound : GoString
  NoPermissions : GoString
  RateLimited : GoString
deriving DecidableEq, Repr

/-- Type `Options` of `mux.go`, in the field order of the source. -/
structure Options where
  IgnoreBots : Bool
  IgnoreDMs : Bool
  IgnoreEmpty : Bool
  IgnoreNonDefault : Bool
deriving DecidableEq, Repr

/-- A middleware function value, by identity. -/
abbrev Middleware := Nat

/-- Type `Mux` of `mux.go`. Maps are functions into `Option`; the pointers `options`
and `errorTexts`, which `New` sets and `Handle` dereferences, are held by value. -/
structure Mux where
  Prefix : GoString
  Commands : GoString → Option Command
  SimpleCommands : GoString → Option SimpleCommand
  Middleware : List Middleware
  options : Options
  fuzzyMatch : Bool
  commandNames : List GoString
  errorTexts : ErrorTexts
  permissions : GoString → Option CommandPermissions

/-- The fields of a `discordgo.MessageCreate` that `Handle` reads. -/
structure Message where
  AuthorID : GoString
  AuthorBot : Bool
  Content : GoString
  Type_ : Nat
  GuildID : GoString
  ChannelID : GoString
deriving DecidableEq, Repr

/-- The constant `discordgo.MessageTypeDefault`. -/
def MessageTypeDefault : Nat := 0

/-- The field of the `discordgo.Session` that `Handle` reads: `State.User.ID`. -/
structure Session where
  StateUserID : GoString
deriving DecidableEq, Repr

/-- Type `Context` of `mux.go`. -/
structure Context where
  Prefix : GoString
  Command : GoString
  Arguments : List GoString
  Session : Session
  Message : Message
deriving DecidableEq, Repr

/-- What `Handle` does to the outside: a message sent with
`session.ChannelMessageSend`, a member lookup with `session.GuildMember`, a
middleware started with `go mw(ctx)`, a handler started with
`go handler.Handle(ctx)`. -/
inductive Effect where
  | ChannelMessageSend (channelID content : GoString)
  | GuildMember (guildID userID : GoString)
  | goMiddleware (mw : Middleware) (ctx : Context)
  | goHandle (handler : Command) (ctx : Context)
deriving DecidableEq, Repr

/-! ## Registry and configuration -/

/-- The router `New` builds when it accepts the prefix. -/
def newMux (pfx : GoString) : Mux :=
  { Prefix := pfx
    Commands := fun _ => none
    SimpleCommands := fun _ => none
    Middleware := []
    errorTexts :=
      { CommandNotFound := str "Command not found."
        NoPermissions := str "You do not have permission to use that command."
        RateLimited := [] }
    options := ⟨true, true, true, true⟩
    permissions := fun _ => none
    fuzzyMatch := false
    commandNames := [] }

/-- Function `New` of `mux.go`: the router, or the error text. -/
def New (pfx : GoString) : Except GoString Mux :=
  if pfx.length > 1 then
    .error (str "prefix " ++ pfx ++ str " greater than 1 character")
  else .ok (newMux pfx)

/-- Method `Mux.SetOptions`. -/
def Mux.SetOptions (m : Mux) (opt : Options) : Mux := { m with options := opt }

/-- Method `Mux.SetPermissions`. -/
def Mux.SetPermissions (m : Mux) (perms : GoString → Option CommandPermissions) : Mux :=
  { m with permissions := perms }

/-- Method `Mux.UseMiddleware`. -/
def Mux.UseMiddleware (m : Mux) (mw : Multiplexer.Middleware) : Mux :=
  { m with Middleware := m.Middleware ++ [mw] }

/-- Method `Mux.SetErrors`. -/
def Mux.SetErrors (m : Mux) (errorTexts : ErrorTexts) : Mux := { m with errorTexts := errorTexts }

/-- Method `Mux.Register`. -/
def Mux.Register (m : Mux) (commands : List Command) : Mux :=
  match commands with
  | [] => m
  | c :: rest =>
    let cString := c.Settings.Command
    if cString.length ≠ 0 then
      Mux.Register { m with Commands := Function.update m.Commands cString (some c) } rest
    else Mux.Register m rest

/-- Method `Mux.RegisterSimple`. -/
def Mux.RegisterSimple (m : Mux) (simpleCommands : List SimpleCommand) : Mux :=
  match simpleCommands with
  | [] => m
  | c :: rest =>
    let cString := c.Command
    if cString.length ≠ 0 then
      Mux.RegisterSimple
        { m with SimpleCommands := Function.update m.SimpleCommands cString (some c) } rest
    else Mux.RegisterSimple m rest

/-- Method `Mux.ClearSimple`. -/
def Mux.ClearSimple (m : Mux) : Mux := { m with SimpleCommands := fun _ => none }

/-- Method `Mux.UseFuzzy`; `keys` is the order in which the `range` loop visits the
names of the registered commands. -/
def Mux.UseFuzzy (m : Mux) (keys : List GoString) : Mux :=
  { m with fuzzyMatch := true, commandNames := m.commandNames ++ keys }

/-! ## Dispatcher -/

/-- The command key of `Handle`, `strings.ToLower(args[0][1:])`; `none` is the
panic of indexing an empty `args` or slicing an empty first token. -/
def commandKey (env : Env) (args : List GoString) : Option GoString :=
  match args with
  | [] => none
  | arg0 :: _ =>
    match arg0 with
    | [] => none
    | _ :: tl => some (env.ToLower tl)

/-- The string builder of the fuzzy branch of `Handle` after its loop: one
line per candidate, in the matcher's order. -/
def suggestionLines (fzys : List GoString) : GoString :=
  fzys.foldl (fun sb fzy => sb ++ (str "- `!" ++ fzy ++ str "`\n")) []

/-- Method `Mux.Handle` of `mux.go` at clock reading `now`: the effects, in program
order, and the rate-limit stores afterwards; `none` is a panic. -/
def Mux.Handle (env : Env) (m : Mux) (session : Session) (message : Message)
    (now : Int) (σ : Stores) : Option (List Effect × Stores) :=
  if message.AuthorID = session.StateUserID then some ([], σ)
  else if m.options.IgnoreEmpty = true ∧ message.Content.length = 0 then some ([], σ)
  else if m.options.IgnoreNonDefault = true ∧ message.Type_ ≠ MessageTypeDefault then some ([], σ)
  else if m.options.IgnoreBots = true ∧ message.AuthorBot = true then some ([], σ)
  else if m.options.IgnoreDMs = true ∧ message.GuildID = [] then some ([], σ)
  else if ¬ HasPrefix message.Content m.Prefix = true then some ([], σ)
  else
    let args := Split message.Content space
    match commandKey env args with
    | none => none
    | some command =>
      match m.SimpleCommands command with
      | some simple => some ([Effect.ChannelMessageSend message.ChannelID simple.Content], σ)
      | none =>
        match m.Commands command with
        | none =>
          if m.fuzzyMatch = true then
            let sb := suggestionLines (env.Find command m.commandNames)
            if sb.length ≠ 0 then
              some ([Effect.ChannelMessageSend message.ChannelID
                (str "Command not found. Did you mean: \n" ++ sb)], σ)
            else
              some ([Effect.ChannelMessageSend message.ChannelID m.errorTexts.CommandNotFound], σ)
          else
            some ([Effect.ChannelMessageSend message.ChannelID m.errorTexts.CommandNotFound], σ)
        | some handler =>
          let settings := handler.Settings
          let ctx : Context :=
            { Prefix := m.Prefix
              Command := command
              Arguments := args.tail
              Session := session
              Message := message }
          let limit := checkLimit settings message.AuthorID now σ
          if limit.1 = false then
            some ([Effect.ChannelMessageSend message.ChannelID m.errorTexts.RateLimited], limit.2)
          else
            let mws := m.Middleware.map (fun mw => Effect.goMiddleware mw ctx)
            match m.permissions command with
            | none => some (mws ++ [Effect.goHandle handler ctx], limit.2)
            | some p =>
              let lookup := Effect.GuildMember message.GuildID message.AuthorID
              match env.GuildMember message.GuildID message.AuthorID with
              | none =>
                some (mws ++ [lookup,
                  Effect.ChannelMessageSend message.ChannelID (str "There was a weird issue.")],
                  limit.2)
              | some member =>
                if CheckPermissions env p member.UserID member.Roles message.ChannelID = false then
                  some (mws ++ [lookup,
                    Effect.ChannelMessageSend message.ChannelID m.errorTexts.NoPermissions],
                    limit.2)
                else some (mws ++ [lookup, Effect.goHandle handler ctx], limit.2)

/-- The message is not dropped by any of the filters of `Handle`, the prefix
test included. -/
def Mux.passesFilters (m : Mux) (session : Session) (message : Message) : Prop :=
  message.AuthorID ≠ session.StateUserID ∧
  ¬ (m.options.IgnoreEmpty = true ∧ message.Content.length = 0) ∧
  ¬ (m.options.IgnoreNonDefault = true ∧ message.Type_ ≠ MessageTypeDefault) ∧
  ¬ (m.options.IgnoreBots = true ∧ message.AuthorBot = true) ∧
  ¬ (m.options.IgnoreDMs = true ∧ message.GuildID = []) ∧
  HasPrefix message.Content m.Prefix = true

/-- The tokenization the specification describes: the maximal runs of bytes
that are not white space (space, tab, line feed, vertical tab, form feed,
carriage return), in order; no token is empty. -/
def whitespaceTokens (s : GoString) : List GoString :=
  let isSpace : UInt8 → Bool := fun b => b = 32 ∨ (9 ≤ b ∧ b ≤ 13)
  let step : List GoString × GoString → UInt8 → List GoString × GoString :=
    fun acc b =>
      if isSpace b then (if acc.2 = [] then acc else (acc.1 ++ [acc.2], []))
      else (acc.1, acc.2 ++ [b])
  let r := s.foldl step ([], [])
  if r.2 = [] then r.1 else r.1 ++ [r.2]

/-! ## Concrete collaborators and routers for the test runs -/

/-- The function `strings.ToLower` on ASCII strings: the letters `A` to `Z` are mapped to
`a` to `z`. The concrete runs below use ASCII strings only. -/
def asciiToLower (s : GoString) : GoString :=
  s.map (fun b => if 65 ≤ b ∧ b ≤ 90 then b + 32 else b)

/-- Collaborators for the concrete runs: ASCII lower-casing, a matcher that
keeps the names having the pattern as a subsequence, and a platform on which
every user is a member without roles. -/
def demoEnv : Env :=
  { ToLower := asciiToLower
    Find := fun pattern data => data.filter (fun d => pattern.isSublist d)
    GuildMember := fun _ userID => some ⟨userID, []⟩ }

/-- The bot of the concrete runs. -/
def demoSession : Session := ⟨str "bot"⟩

/-- A message with the given content, from user `u` in guild `g`, channel `c`. -/
def demoMessage (content : GoString) : Message :=
  ⟨str "u", false, content, MessageTypeDefault, str "g", str "c", ⟩

/-- A handler named `name` with identity `id`, without a rate limiter. -/
def demoCommand (id : Nat) (name : GoString) : Command := ⟨id, name, [], 0, none⟩

/-- A router with prefix `!` in which the name `hi` is a simple command and
also a full command with a rate limiter (limit 0) and a permission entry that
admits nobody, with one middleware. -/
def shadowedMux : Mux :=
  ((((newMux (str "!")).Register [⟨1, str "example", [], 5, some 0⟩,
      ⟨2, str "hi", [], 0, some 0⟩]).RegisterSimple
      [⟨str "hi", str "hello there", str "This is a simple command"⟩]).SetPermissions
      (fun _ => some ⟨[str "nobody"], [], []⟩)).UseMiddleware 7

/-- A router with prefix `?`, one command `example`, and fuzzy matching
enabled after registration. -/
def fuzzyMux : Mux :=
  ((newMux (str "?")).Register [demoCommand 1 (str "example")]).UseFuzzy [str "example"]

/-- The router `New` returns for the prefix made of one space character. -/
def spaceMux : Mux := newMux (str " ")

/-- The router `New` returns for the empty prefix, with the option
`IgnoreEmpty` switched off by `SetOptions`. -/
def emptyPrefixMux : Mux := (newMux []).SetOptions ⟨true, true, false, true⟩

/-- The command key in the words of the specification: the first token of
the content, tokens being delimited by white space, with the prefix `pfx`
removed from its front, lower-cased. -/
def claimedCommandKey (env : Env) (pfx content : GoString) : Option GoString :=
  match whitespaceTokens content with
  | [] => none
  | t :: _ => some (env.ToLower (t.drop pfx.length))

/-- The simple command `hi` of the concrete runs. -/
def hiSimple : SimpleCommand := ⟨str "hi", str "hello there", str "This is a simple command"⟩

/-! # Theorems -/

/-! ## Rate limiter: lemmas -/

theorem wrapInt_of_range (x : Int) (h1 : -(2 ^ 63) ≤ x) (h2 : x < 2 ^ 63) : wrapInt x = x := by
  unfold wrapInt
  norm_num at h1 h2 ⊢
  omega

/-- One call on a cold key seeds the counter to 1 and allows. -/
theorem checkLimit_cold (cs : CommandSettings) (a : Nat) (id : GoString) (t : Int) (σ : Stores)
    (hdb : cs.RateLimitDB = some a) (hcold : (σ a).cold t id) :
    checkLimit cs id t σ = (true, Function.update σ a ((σ a).SetDefault t id 1)) := by
  unfold checkLimit
  rw [hdb]
  rcases hcold with h | ⟨it, h, hpos, hlt⟩
  · simp [Cache.IncrementInt, Cache.Get, h]
  · have hne : it.Expiration ≠ 0 := by omega
    simp [Cache.IncrementInt, Cache.Get, h, Item.Expired, hne, hpos, hlt]

/-- One call on a live entry increments the counter and compares it with `max + 1`. -/
theorem checkLimit_live (cs : CommandSettings) (a : Nat) (id : GoString) (t : Int) (σ : Stores)
    (c e : Int) (hdb : cs.RateLimitDB = some a) (hit : (σ a).items id = some ⟨c, e⟩)
    (hlive : e = 0 ∨ t ≤ e) :
    checkLimit cs id t σ =
      (decide (wrapInt (c + 1) < wrapInt (cs.RateLimitMax + 1)),
       Function.update σ a
        { σ a with items := Function.update (σ a).items id (some ⟨wrapInt (c + 1), e⟩) }) := by
  unfold checkLimit
  rw [hdb]
  have hexp : (Item.mk c e).Expired t = false := by
    unfold Item.Expired
    rcases hlive with h | h
    · simp [h]
    · by_cases h0 : e = 0
      · simp [h0]
      · simp [h0]; omega
  have hnot : ¬ (0 < e ∧ e < t) := by omega
  by_cases hpos : 0 < e
  · have hle : ¬ e < t := fun h => hnot ⟨hpos, h⟩
    by_cases hlt : wrapInt (c + 1) < wrapInt (cs.RateLimitMax + 1) <;>
      simp [Cache.IncrementInt, Cache.Get, hit, hexp, hpos, hle, hlt]
  · by_cases hlt : wrapInt (c + 1) < wrapInt (cs.RateLimitMax + 1) <;>
      simp [Cache.IncrementInt, Cache.Get, hit, hexp, hpos, hlt]

/-- Calls on a live entry holding `c`: the `i`-th of them (from 0) sees the counter `c + i + 1`. -/
theorem checkLimitCalls_live (cs : CommandSettings) (a : Nat) (id : GoString)
    (hdb : cs.RateLimitDB = some a) (e : Int) :
    ∀ (ts : List Int) (σ : Stores) (c : Int), (σ a).items id = some ⟨c, e⟩ → 0 ≤ c →
      (∀ t ∈ ts, e = 0 ∨ t ≤ e) →
      ∀ i : Nat, i < ts.length → c + i + 1 < 2 ^ 63 →
        (checkLimitCalls cs id ts σ)[i]? =
          some (decide (c + i + 1 < wrapInt (cs.RateLimitMax + 1))) := by
  intro ts
  induction ts with
  | nil => intro σ c _ _ _ i hi; simp at hi
  | cons t ts ih =>
    intro σ c hit hc hlive i hi hlen
    have hstep := checkLimit_live cs a id t σ c e hdb hit (hlive t (by simp))
    have hw : wrapInt (c + 1) = c + 1 := by
      apply wrapInt_of_range
      · omega
      · have : (0 : Int) ≤ (i : Int) := Int.ofNat_nonneg i
        omega
    rw [hw] at hstep
    cases i with
    | zero => simp [checkLimitCalls, hstep]
    | succ j =>
      simp only [checkLimitCalls, List.getElem?_cons_succ]
      rw [hstep]
      simp only [Nat.cast_add, Nat.cast_one] at hlen
      have := ih (Function.update σ a
        { σ a with items := Function.update (σ a).items id (some ⟨c + 1, e⟩) }) (c + 1)
        (by simp) (by omega) (fun t ht => hlive t (by simp [ht])) j
        (by simpa using hi) (by omega)
      rw [this]
      simp only [Nat.cast_add, Nat.cast_one]
      rw [show c + 1 + (j : Int) + 1 = c + ((j : Int) + 1) + 1 by ring]

/-! ## Rate limiter: claims -/

/-- C1 (as amended): with a store configured, a limit `max` with `1 ≤ max` and
`max + 1` representable as a Go `int`, and a user whose key is cold (absent or
with an elapsed window) at the first call, among consecutive calls with no
expiry in between the `k`-th call (for `k` below `2^63`) is allowed if and
only if `k ≤ max`. -/
theorem checkLimit_kth_call_iff (cs : CommandSettings) (a : Nat) (id : GoString) (σ : Stores)
    (t0 : Int) (ts : List Int) (k : Nat)
    (hdb : cs.RateLimitDB = some a)
    (hmax1 : 1 ≤ cs.RateLimitMax) (hmax2 : cs.RateLimitMax < maxInt)
    (hcold : (σ a).cold t0 id)
    (hlive : ∀ t ∈ ts, (σ a).defaultExpiration ≤ 0 ∨ t ≤ t0 + (σ a).defaultExpiration)
    (hk1 : 1 ≤ k) (hk2 : k ≤ ts.length + 1) (hk3 : (k : Int) < 2 ^ 63) :
    (checkLimitCalls cs id (t0 :: ts) σ)[k - 1]? = some (decide ((k : Int) ≤ cs.RateLimitMax)) := by
  have hw : wrapInt (cs.RateLimitMax + 1) = cs.RateLimitMax + 1 := by
    apply wrapInt_of_range
    · omega
    · unfold maxInt at hmax2; omega
  have hstep := checkLimit_cold cs a id t0 σ hdb hcold
  obtain ⟨j, rfl⟩ : ∃ j, k = j + 1 := ⟨k - 1, by omega⟩
  cases j with
  | zero => simp [checkLimitCalls, hstep, hmax1]
  | succ i =>
    simp only [checkLimitCalls, Nat.add_sub_cancel, List.getElem?_cons_succ]
    rw [hstep]
    simp only [Nat.cast_add, Nat.cast_one] at hk3
    have := checkLimitCalls_live cs a id hdb
      (if (σ a).defaultExpiration > 0 then t0 + (σ a).defaultExpiration else 0) ts
      (Function.update σ a ((σ a).SetDefault t0 id 1)) 1
      (by simp [Cache.SetDefault]) (by omega)
      (fun t ht => by
        rcases hlive t ht with h | h
        · left; simp; intro h'; omega
        · by_cases hd : (σ a).defaultExpiration > 0
          · right; simp [hd, h]
          · left; simp [hd])
      i (by omega) (by omega)
    rw [this, hw]
    congr 1
    push_cast
    apply decide_eq_decide.mpr
    constructor <;> intro h <;> omega

/-- C1, a concrete run: limit 5, one-minute window, seven calls within the
window starting from an empty store; calls 1 to 5 are allowed, call 6 is denied. -/
theorem checkLimit_kth_call_iff_witness :
    (checkLimitCalls (exampleSettings 5) (str "u") [0, 1, 2, 3, 4, 5, 6] emptyStores)[6 - 1]?
      = some (decide (((6 : Nat) : Int) ≤ (exampleSettings 5).RateLimitMax)) :=
  checkLimit_kth_call_iff (exampleSettings 5) 0 (str "u") emptyStores 0 [1, 2, 3, 4, 5, 6] 6
    rfl (by decide) (by decide) (Or.inl rfl) (by decide) (by decide) (by decide) (by decide)

/-- C1 as stated fails when `max + 1` overflows: with `max` the largest Go
`int`, which is at least 2, the second call on a cold key is denied. -/
theorem checkLimit_maxInt_second_call_denied :
    (1 : Int) ≤ (exampleSettings maxInt).RateLimitMax ∧
    ((2 : Nat) : Int) ≤ (exampleSettings maxInt).RateLimitMax ∧
    (checkLimitCalls (exampleSettings maxInt) (str "u") [0, 1] emptyStores)[2 - 1]? = some false := by
  decide

/-- C2 (as amended): when the store is absent (`RateLimitDB` is nil),
`checkLimit` allows every user at every clock reading, whatever the stores
hold and whatever `RateLimitMax` is, and leaves the stores unchanged. -/
theorem checkLimit_no_store (cs : CommandSettings) (id : GoString) (now : Int) (σ : Stores)
    (hdb : cs.RateLimitDB = none) : checkLimit cs id now σ = (true, σ) := by
  simp [checkLimit, hdb]

/-- C2, a concrete call without a store. -/
theorem checkLimit_no_store_witness :
    checkLimit ⟨str "example", [], 0, none⟩ (str "u") 7 emptyStores = (true, emptyStores) :=
  checkLimit_no_store ⟨str "example", [], 0, none⟩ (str "u") 7 emptyStores rfl

/-- C2 as stated fails for `RateLimitMax = 0` with a store present: the second
call of a user within the window is denied. -/
theorem checkLimit_zero_max_denies :
    (exampleSettings 0).RateLimitMax = 0 ∧
    checkLimitCalls (exampleSettings 0) (str "u") [0, 1] emptyStores = [true, false] := by
  decide

/-! ## Permission checker -/

/-- With `ignoreCase` set, `ArrayContains` finds `value` exactly when some
lower-cased entry equals it. -/
theorem ArrayContains_ignoreCase_iff (env : Env) (array : List GoString) (value : GoString) :
    ArrayContains env array value true = true ↔ ∃ e ∈ array, env.ToLower e = value := by
  induction array with
  | nil => simp [ArrayContains]
  | cons a rest ih =>
    by_cases h : env.ToLower a = value
    · simp [ArrayContains, h]
    · simp [ArrayContains, h, ih]

/-- The verdict of `ArrayContains` with `ignoreCase` set depends on the
whitelist only through the lower-casing of its entries. -/
theorem ArrayContains_congr_lower (env : Env) (xs ys : List GoString) (value : GoString)
    (h : xs.map env.ToLower = ys.map env.ToLower) :
    ArrayContains env xs value true = ArrayContains env ys value true := by
  have key : ∀ zs : List GoString,
      ArrayContains env zs value true = decide (value ∈ zs.map env.ToLower) := by
    intro zs
    rw [Bool.eq_iff_iff, ArrayContains_ignoreCase_iff]
    simp
  rw [key xs, key ys, h]

/-- Replacing whitelist entries by strings with the same lower-casing leaves
the verdict of `CheckPermissions` unchanged. -/
theorem CheckPermissions_congr_lower (env : Env) (p q : CommandPermissions)
    (userID : GoString) (roleIDs : List GoString) (chanID : GoString)
    (hu : p.UserIDs.map env.ToLower = q.UserIDs.map env.ToLower)
    (hr : p.RoleIDs.map env.ToLower = q.RoleIDs.map env.ToLower)
    (hc : p.ChanIDs.map env.ToLower = q.ChanIDs.map env.ToLower) :
    CheckPermissions env p userID roleIDs chanID = CheckPermissions env q userID roleIDs chanID := by
  have lu : p.UserIDs.length = q.UserIDs.length := by simpa using congrArg List.length hu
  have lr : p.RoleIDs.length = q.RoleIDs.length := by simpa using congrArg List.length hr
  have lc : p.ChanIDs.length = q.ChanIDs.length := by simpa using congrArg List.length hc
  have hroles : (roleIDs.any fun id => ArrayContains env p.RoleIDs id true) =
      (roleIDs.any fun id => ArrayContains env q.RoleIDs id true) := by
    congr 1
    funext id
    exact ArrayContains_congr_lower env _ _ id hr
  unfold CheckPermissions
  rw [lu, lr, lc, hroles, ArrayContains_congr_lower env _ _ userID hu,
    ArrayContains_congr_lower env _ _ chanID hc]

/-- C3, the failing input: with the user whitelist `abc`, the user ID `abc` is
permitted and the user ID `ABC`, which differs from it only in letter case, is
denied: `ArrayContains` lower-cases the whitelist entry but not the value. -/
theorem CheckPermissions_case_sensitive_in_userID :
    CheckPermissions demoEnv ⟨[str "abc"], [], []⟩ (str "abc") [] (str "c") = true ∧
    CheckPermissions demoEnv ⟨[str "abc"], [], []⟩ (str "ABC") [] (str "c") = false := by
  decide

/-- C4: `CheckPermissions` permits everything when the three whitelists are
empty, and otherwise permits exactly when some lower-cased `UserIDs` entry
equals `userID`, or some lower-cased `RoleIDs` entry equals one of `roleIDs`,
or some lower-cased `ChanIDs` entry equals `chanID`; with only the role
whitelist `R1`, lower-cased to `r1`, a caller is permitted exactly when `r1`
is among its roles. -/
theorem CheckPermissions_or_of_whitelists (env : Env) (perms : CommandPermissions)
    (userID : GoString) (roleIDs : List GoString) (chanID : GoString) :
    ((perms.UserIDs = [] ∧ perms.RoleIDs = [] ∧ perms.ChanIDs = []) →
      CheckPermissions env perms userID roleIDs chanID = true) ∧
    (¬ (perms.UserIDs = [] ∧ perms.RoleIDs = [] ∧ perms.ChanIDs = []) →
      (CheckPermissions env perms userID roleIDs chanID = true ↔
        (∃ e ∈ perms.UserIDs, env.ToLower e = userID) ∨
        (∃ r ∈ roleIDs, ∃ e ∈ perms.RoleIDs, env.ToLower e = r) ∨
        (∃ e ∈ perms.ChanIDs, env.ToLower e = chanID))) ∧
    (env.ToLower (str "R1") = str "r1" →
      (CheckPermissions env ⟨[], [str "R1"], []⟩ userID roleIDs chanID = true ↔
        str "r1" ∈ roleIDs)) := by
  have general : ∀ q : CommandPermissions,
      ¬ (q.UserIDs = [] ∧ q.RoleIDs = [] ∧ q.ChanIDs = []) →
      (CheckPermissions env q userID roleIDs chanID = true ↔
        (∃ e ∈ q.UserIDs, env.ToLower e = userID) ∨
        (∃ r ∈ roleIDs, ∃ e ∈ q.RoleIDs, env.ToLower e = r) ∨
        (∃ e ∈ q.ChanIDs, env.ToLower e = chanID)) := by
    intro q hne
    have hne' : ¬ (q.UserIDs.length = 0 ∧ q.RoleIDs.length = 0 ∧ q.ChanIDs.length = 0) := by
      simpa [List.length_eq_zero] using hne
    unfold CheckPermissions
    rw [if_neg hne']
    by_cases h1 : ArrayContains env q.UserIDs userID true = true
    · rw [if_pos h1]
      have := (ArrayContains_ignoreCase_iff env q.UserIDs userID).mp h1
      simp [this]
    · rw [if_neg h1]
      have n1 : ¬ ∃ e ∈ q.UserIDs, env.ToLower e = userID :=
        fun h => h1 ((ArrayContains_ignoreCase_iff env _ _).mpr h)
      by_cases h2 : (roleIDs.any fun id => ArrayContains env q.RoleIDs id true) = true
      · rw [if_pos h2]
        have : ∃ r ∈ roleIDs, ∃ e ∈ q.RoleIDs, env.ToLower e = r := by
          obtain ⟨r, hr, hc⟩ := List.any_eq_true.mp h2
          exact ⟨r, hr, (ArrayContains_ignoreCase_iff env _ _).mp hc⟩
        simp [this]
      · rw [if_neg h2]
        have n2 : ¬ ∃ r ∈ roleIDs, ∃ e ∈ q.RoleIDs, env.ToLower e = r := by
          rintro ⟨r, hr, he⟩
          exact h2 (List.any_eq_true.mpr ⟨r, hr, (ArrayContains_ignoreCase_iff env _ _).mpr he⟩)
        rw [ArrayContains_ignoreCase_iff]
        constructor
        · intro h; exact Or.inr (Or.inr h)
        · rintro (h | h | h)
          · exact absurd h n1
          · exact absurd h n2
          · exact h
  refine ⟨?_, general perms, ?_⟩
  · rintro ⟨hu, hr, hc⟩
    simp [CheckPermissions, hu, hr, hc]
  · intro hlow
    rw [general ⟨[], [str "R1"], []⟩ (by simp)]
    simp [hlow]

/-- C4 on the role whitelist `R1`: roles `x`, `r1` are permitted, role `x` alone is denied. -/
theorem CheckPermissions_or_of_whitelists_witness :
    CheckPermissions demoEnv ⟨[], [str "R1"], []⟩ (str "u") [str "x", str "r1"] (str "c") = true ∧
    ¬ CheckPermissions demoEnv ⟨[], [str "R1"], []⟩ (str "u") [str "x"] (str "c") = true :=
  ⟨((CheckPermissions_or_of_whitelists demoEnv ⟨[], [str "R1"], []⟩ (str "u")
      [str "x", str "r1"] (str "c")).2.2 (by decide)).mpr (by decide),
   fun h => absurd (((CheckPermissions_or_of_whitelists demoEnv ⟨[], [str "R1"], []⟩ (str "u")
      [str "x"] (str "c")).2.2 (by decide)).mp h) (by decide)⟩

/-! ## Dispatcher: filters -/

/-- A message that passes the filters reaches the tokenization of `Handle`. -/
theorem Handle_of_passesFilters (env : Env) (m : Mux) (session : Session) (message : Message)
    (now : Int) (σ : Stores) (hf : m.passesFilters session message) :
    m.Handle env session message now σ =
      match commandKey env (Split message.Content space) with
      | none => none
      | some command =>
        match m.SimpleCommands command with
        | some simple => some ([Effect.ChannelMessageSend message.ChannelID simple.Content], σ)
        | none =>
          match m.Commands command with
          | none =>
            if m.fuzzyMatch = true then
              if (suggestionLines (env.Find command m.commandNames)).length ≠ 0 then
                some ([Effect.ChannelMessageSend message.ChannelID
                  (str "Command not found. Did you mean: \n" ++
                    suggestionLines (env.Find command m.commandNames))], σ)
              else
                some ([Effect.ChannelMessageSend message.ChannelID m.errorTexts.CommandNotFound], σ)
            else
              some ([Effect.ChannelMessageSend message.ChannelID m.errorTexts.CommandNotFound], σ)
          | some handler =>
            if (checkLimit handler.Settings message.AuthorID now σ).1 = false then
              some ([Effect.ChannelMessageSend message.ChannelID m.errorTexts.RateLimited],
                (checkLimit handler.Settings message.AuthorID now σ).2)
            else
              match m.permissions command with
              | none =>
                some (m.Middleware.map (fun mw => Effect.goMiddleware mw
                    ⟨m.Prefix, command, (Split message.Content space).tail, session, message⟩) ++
                  [Effect.goHandle handler
                    ⟨m.Prefix, command, (Split message.Content space).tail, session, message⟩],
                  (checkLimit handler.Settings message.AuthorID now σ).2)
              | some p =>
                match env.GuildMember message.GuildID message.AuthorID with
                | none =>
                  some (m.Middleware.map (fun mw => Effect.goMiddleware mw
                      ⟨m.Prefix, command, (Split message.Content space).tail, session, message⟩) ++
                    [Effect.GuildMember message.GuildID message.AuthorID,
                     Effect.ChannelMessageSend message.ChannelID (str "There was a weird issue.")],
                    (checkLimit handler.Settings message.AuthorID now σ).2)
                | some member =>
                  if CheckPermissions env p member.UserID member.Roles message.ChannelID = false then
                    some (m.Middleware.map (fun mw => Effect.goMiddleware mw
                        ⟨m.Prefix, command, (Split message.Content space).tail, session, message⟩) ++
                      [Effect.GuildMember message.GuildID message.AuthorID,
                       Effect.ChannelMessageSend message.ChannelID m.errorTexts.NoPermissions],
                      (checkLimit handler.Settings message.AuthorID now σ).2)
                  else
                    some (m.Middleware.map (fun mw => Effect.goMiddleware mw
                        ⟨m.Prefix, command, (Split message.Content space).tail, session, message⟩) ++
                      [Effect.GuildMember message.GuildID message.AuthorID,
                       Effect.goHandle handler
                        ⟨m.Prefix, command, (Split message.Content space).tail, session, message⟩],
                      (checkLimit handler.Settings message.AuthorID now σ).2) := by
  obtain ⟨h1, h2, h3, h4, h5, h6⟩ := hf
  unfold Mux.Handle
  rw [if_neg h1, if_neg h2, if_neg h3, if_neg h4, if_neg h5, if_neg (by simp [h6])]

/-- C6: a message whose content does not start with the configured prefix
makes `Handle` return without any effect and with the rate-limit stores
unchanged. -/
theorem Handle_without_prefix (env : Env) (m : Mux) (session : Session) (message : Message)
    (now : Int) (σ : Stores) (h : HasPrefix message.Content m.Prefix = false) :
    m.Handle env session message now σ = some ([], σ) := by
  unfold Mux.Handle
  by_cases h1 : message.AuthorID = session.StateUserID
  · rw [if_pos h1]
  rw [if_neg h1]
  by_cases h2 : m.options.IgnoreEmpty = true ∧ message.Content.length = 0
  · rw [if_pos h2]
  rw [if_neg h2]
  by_cases h3 : m.options.IgnoreNonDefault = true ∧ message.Type_ ≠ MessageTypeDefault
  · rw [if_pos h3]
  rw [if_neg h3]
  by_cases h4 : m.options.IgnoreBots = true ∧ message.AuthorBot = true
  · rw [if_pos h4]
  rw [if_neg h4]
  by_cases h5 : m.options.IgnoreDMs = true ∧ message.GuildID = []
  · rw [if_pos h5]
  rw [if_neg h5, if_pos (by simp [h])]

/-- C6 on the same router: the message `hi there`, which lacks the prefix, has no effect. -/
theorem Handle_without_prefix_witness :
    shadowedMux.Handle demoEnv demoSession (demoMessage (str "hi there")) 0 emptyStores =
      some ([], emptyStores) :=
  Handle_without_prefix demoEnv shadowedMux demoSession (demoMessage (str "hi there")) 0
    emptyStores (by decide)

/-! ## Construction -/

/-- C8 (as amended): `New` returns an error exactly when the prefix is longer
than one byte; for a prefix of at most one byte (the empty prefix included) it
returns a router with that prefix, empty command and simple-command tables, no
middleware and fuzzy matching disabled. -/
theorem New_error_iff_longer_than_one (pfx : GoString) :
    ((∃ e, New pfx = Except.error e) ↔ 1 < pfx.length) ∧
    (pfx.length ≤ 1 →
      ∃ m, New pfx = Except.ok m ∧ m.Prefix = pfx ∧ (∀ k, m.Commands k = none) ∧
        (∀ k, m.SimpleCommands k = none) ∧ m.Middleware = [] ∧ m.fuzzyMatch = false) := by
  constructor
  · by_cases h : pfx.length > 1
    · simp [New, h]
    · simp [New, h]
  · intro h
    have h' : ¬ pfx.length > 1 := by omega
    exact ⟨newMux pfx, by simp [New, h'], rfl, fun _ => rfl, fun _ => rfl, rfl, rfl⟩

/-- C8 on the prefix `!`: accepted, with an empty router. -/
theorem New_error_iff_longer_than_one_witness :
    ∃ m, New (str "!") = Except.ok m ∧ m.Prefix = str "!" ∧ (∀ k, m.Commands k = none) ∧
      (∀ k, m.SimpleCommands k = none) ∧ m.Middleware = [] ∧ m.fuzzyMatch = false :=
  (New_error_iff_longer_than_one (str "!")).2 (by decide)

/-- C8 as stated fails on the empty prefix: it is not one character long, yet
`New` accepts it. -/
theorem New_accepts_empty_prefix :
    ([] : GoString).length ≠ 1 ∧ New [] = Except.ok (newMux []) ∧
      ¬ ∃ e, New [] = Except.error e := by
  refine ⟨by decide, rfl, ?_⟩
  rintro ⟨e, he⟩
  simp [New] at he

/-! ## Registration -/

/-- Registering in two steps is registering the concatenated list. -/
theorem Register_append (xs ys : List Command) :
    ∀ m : Mux, (m.Register xs).Register ys = m.Register (xs ++ ys) := by
  induction xs with
  | nil => intro m; simp [Mux.Register]
  | cons c rest ih =>
    intro m
    by_cases h : c.Settings.Command.length ≠ 0
    · simp only [Mux.Register, List.cons_append, if_pos h]
      exact ih _
    · simp only [Mux.Register, List.cons_append, if_neg h]
      exact ih _

/-- Registration changes nothing but the full-command table. -/
theorem Register_frame (cs : List Command) :
    ∀ m : Mux, (m.Register cs).Prefix = m.Prefix ∧
      (m.Register cs).SimpleCommands = m.SimpleCommands ∧
      (m.Register cs).Middleware = m.Middleware ∧ (m.Register cs).options = m.options ∧
      (m.Register cs).fuzzyMatch = m.fuzzyMatch ∧
      (m.Register cs).commandNames = m.commandNames ∧
      (m.Register cs).errorTexts = m.errorTexts ∧
      (m.Register cs).permissions = m.permissions := by
  induction cs with
  | nil => intro m; simp [Mux.Register]
  | cons c rest ih =>
    intro m
    by_cases h : c.Settings.Command.length ≠ 0
    · simp only [Mux.Register, if_pos h]
      exact ih _
    · simp only [Mux.Register, if_neg h]
      exact ih _

/-- Two handlers of the same non-empty name: the table keeps the second. -/
theorem Register_two_same_name (m : Mux) (n : GoString) (h1 h2 : Command)
    (hn : n ≠ []) (hn1 : h1.Settings.Command = n) (hn2 : h2.Settings.Command = n) :
    (m.Register [h1, h2]).Commands n = some h2 := by
  have hl : n.length ≠ 0 := by simpa [List.length_eq_zero] using hn
  simp [Mux.Register, hn1, hn2, hl]

/-- C7 (as amended): for a non-empty name `n` and two handlers `h1`, `h2`
declaring it, registering `h1` then `h2` (in one call or in two) leaves `n`
mapped to `h2`; and when the prefix is one byte and `n` is its own
lower-casing, a message that passes the filters, whose first space-separated
token is the prefix followed by `n`, with no simple command `n`, allowed by
the rate limiter and by the permission gate, starts `h2` last, after effects
none of which starts a handler. -/
theorem Register_last_writer_dispatched (env : Env) (m : Mux) (session : Session)
    (message : Message) (now : Int) (σ : Stores) (n : GoString) (h1 h2 : Command)
    (b : UInt8) (rest : List GoString)
    (hn : n ≠ []) (hn1 : h1.Settings.Command = n) (hn2 : h2.Settings.Command = n)
    (hpfx : m.Prefix = [b]) (hlow : env.ToLower n = n)
    (hf : m.passesFilters session message)
    (htok : Split message.Content space = (m.Prefix ++ n) :: rest)
    (hsimple : m.SimpleCommands n = none)
    (hlimit : (checkLimit h2.Settings message.AuthorID now σ).1 = true)
    (hperm : m.permissions n = none ∨
      ∃ p member, m.permissions n = some p ∧
        env.GuildMember message.GuildID message.AuthorID = some member ∧
        CheckPermissions env p member.UserID member.Roles message.ChannelID = true) :
    (m.Register [h1]).Register [h2] = m.Register [h1, h2] ∧
    (m.Register [h1, h2]).Commands n = some h2 ∧
    ∃ pre : List Effect, (∀ e ∈ pre, ∀ h c, e ≠ Effect.goHandle h c) ∧
      (m.Register [h1, h2]).Handle env session message now σ =
        some (pre ++ [Effect.goHandle h2 ⟨m.Prefix, n, rest, session, message⟩],
          (checkLimit h2.Settings message.AuthorID now σ).2) := by
  have hreg := Register_two_same_name m n h1 h2 hn hn1 hn2
  obtain ⟨fP, fS, fM, fO, fF, fN, fE, fPerm⟩ := Register_frame [h1, h2] m
  have hf' : (m.Register [h1, h2]).passesFilters session message := by
    unfold Mux.passesFilters at hf ⊢
    rw [fP, fO]
    exact hf
  have hkey : commandKey env (Split message.Content space) = some n := by
    rw [htok, hpfx]
    simp [commandKey, hlow]
  have hmw : ∀ (ctx : Context) (e : Effect),
      e ∈ m.Middleware.map (fun mw => Effect.goMiddleware mw ctx) →
      ∀ h c, e ≠ Effect.goHandle h c := by
    intro ctx e he h c
    obtain ⟨mw, _, rfl⟩ := List.mem_map.mp he
    simp
  refine ⟨Register_append [h1] [h2] m, hreg, ?_⟩
  rw [Handle_of_passesFilters env _ session message now σ hf', hkey]
  simp only [fS, hsimple, hreg, fP, fM, fPerm, htok, List.tail_cons, hlimit,
    Bool.true_eq_false, if_false]
  rcases hperm with hp | ⟨p, member, hp, hg, hc⟩
  · simp only [hp]
    exact ⟨_, hmw _, rfl⟩
  · simp only [hp, hg, hc, Bool.true_eq_false, if_false]
    refine ⟨m.Middleware.map (fun mw => Effect.goMiddleware mw
      ⟨m.Prefix, n, rest, session, message⟩) ++
      [Effect.GuildMember message.GuildID message.AuthorID], ?_, by simp⟩
    intro e he h c
    rcases List.mem_append.mp he with he | he
    · exact hmw _ e he h c
    · simp at he
      subst he
      simp

/-- C7 on the prefix `!` and the name `cmd`: after registering handlers 1 and
2 under it, the message `!cmd a` starts handler 2. -/
theorem Register_last_writer_dispatched_witness :
    ((newMux (str "!")).Register [demoCommand 1 (str "cmd"), demoCommand 2 (str "cmd")]).Commands
        (str "cmd") = some (demoCommand 2 (str "cmd")) ∧
    ∃ pre : List Effect, (∀ e ∈ pre, ∀ h c, e ≠ Effect.goHandle h c) ∧
      ((newMux (str "!")).Register [demoCommand 1 (str "cmd"), demoCommand 2 (str "cmd")]).Handle
          demoEnv demoSession (demoMessage (str "!cmd a")) 0 emptyStores =
        some (pre ++ [Effect.goHandle (demoCommand 2 (str "cmd"))
            ⟨(newMux (str "!")).Prefix, str "cmd", [str "a"], demoSession,
              demoMessage (str "!cmd a")⟩],
          (checkLimit (demoCommand 2 (str "cmd")).Settings (demoMessage (str "!cmd a")).AuthorID
            0 emptyStores).2) :=
  (Register_last_writer_dispatched demoEnv (newMux (str "!")) demoSession
    (demoMessage (str "!cmd a")) 0 emptyStores (str "cmd") (demoCommand 1 (str "cmd"))
    (demoCommand 2 (str "cmd")) 33 [str "a"] (by decide) rfl rfl (by decide) (by decide)
    (by unfold Mux.passesFilters; decide) (by decide) rfl (by decide) (Or.inl rfl)).2

/-- C7 as stated fails on the empty name, which `Register` skips, and on a
name with a capital letter, which `Handle` never looks up: after registering
handlers 1 and 2 under `Foo`, the message `!Foo` is answered "Command not
found." and no handler is started. -/
theorem Register_skips_empty_and_Handle_lowers :
    ((newMux (str "!")).Register [demoCommand 1 [], demoCommand 2 []]).Commands [] = none ∧
    ((newMux (str "!")).Register [demoCommand 1 (str "Foo"), demoCommand 2 (str "Foo")]).Commands
        (str "Foo") = some (demoCommand 2 (str "Foo")) ∧
    (((newMux (str "!")).Register [demoCommand 1 (str "Foo"), demoCommand 2 (str "Foo")]).Handle
        demoEnv demoSession (demoMessage (str "!Foo")) 0 emptyStores).map Prod.fst =
      some [Effect.ChannelMessageSend (str "c") (str "Command not found.")] := by
  decide

/-! ## Tokenization -/

/-- The list returned by `Split` is never empty. -/
theorem Split_ne_nil (sep : UInt8) : ∀ s : GoString, Split s sep ≠ [] := by
  intro s
  induction s with
  | nil => simp [Split]
  | cons b rest ih =>
    unfold Split
    by_cases h : b = sep
    · simp [h]
    · rw [if_neg h]
      cases hs : Split rest sep with
      | nil => simp
      | cons t ts => simp

/-- No piece returned by `Split` contains the separator. -/
theorem Split_no_sep (sep : UInt8) : ∀ s : GoString, ∀ t ∈ Split s sep, sep ∉ t := by
  intro s
  induction s with
  | nil => simp [Split]
  | cons b rest ih =>
    unfold Split
    by_cases h : b = sep
    · rw [if_pos h]
      intro t ht
      rcases List.mem_cons.mp ht with rfl | ht
      · simp
      · exact ih t ht
    · rw [if_neg h]
      cases hs : Split rest sep with
      | nil => exact absurd hs (Split_ne_nil sep rest)
      | cons u us =>
        rw [hs] at ih
        intro t ht
        rcases List.mem_cons.mp ht with rfl | ht
        · intro hmem
          rcases List.mem_cons.mp hmem with heq | hmem
          · exact h heq.symm
          · exact ih u (by simp) hmem
        · exact ih t (by simp [ht])

/-- Joining the pieces of `Split` with the separator gives the string back. -/
theorem Split_intercalate (sep : UInt8) :
    ∀ s : GoString, [sep].intercalate (Split s sep) = s := by
  intro s
  induction s with
  | nil => simp [Split, List.intercalate]
  | cons b rest ih =>
    unfold Split
    by_cases h : b = sep
    · rw [if_pos h]
      cases hs : Split rest sep with
      | nil => exact absurd hs (Split_ne_nil sep rest)
      | cons u us =>
        rw [hs] at ih
        rw [← ih, h]
        simp [List.intercalate, List.intersperse]
    · rw [if_neg h]
      cases hs : Split rest sep with
      | nil => exact absurd hs (Split_ne_nil sep rest)
      | cons u us =>
        rw [hs] at ih
        rw [← ih]
        cases us <;> simp [List.intercalate, List.intersperse]

/-- When the first piece of the content is not empty, its first byte is the
first byte of the content. -/
theorem Split_head_cons (sep b : UInt8) (tl : GoString) (rest : List GoString) :
    ∀ s : GoString, Split s sep = (b :: tl) :: rest → ∃ r, s = b :: r := by
  intro s hs
  cases s with
  | nil => simp [Split] at hs
  | cons c r =>
    unfold Split at hs
    by_cases h : c = sep
    · rw [if_pos h] at hs; simp at hs
    · rw [if_neg h] at hs
      cases hr : Split r sep with
      | nil => rw [hr] at hs; simp at hs; exact ⟨r, by rw [hs.1.1]⟩
      | cons u us => rw [hr] at hs; simp at hs; exact ⟨r, by rw [hs.1.1]⟩

/-- C9 (as amended): for a message that passes the filters, `Handle` splits
the content at every single space character and at nothing else: the pieces
contain no space and, joined by one space each, give the content back. When
the first piece `b :: tl` is not empty and the lower-casing of `tl` is a full
command and no simple command, the command key is the first piece without
its first byte (the prefix, when the prefix is one byte), lower-cased, and the
`Arguments` of every context handed to a middleware or handler are exactly
the remaining pieces `rest`, in order, empty pieces included. -/
theorem Handle_tokenizes_on_single_space (env : Env) (m : Mux) (session : Session)
    (message : Message) (now : Int) (σ : Stores) (b : UInt8) (tl : GoString)
    (rest : List GoString) (handler : Command)
    (hf : m.passesFilters session message)
    (htok : Split message.Content space = (b :: tl) :: rest)
    (hsimple : m.SimpleCommands (env.ToLower tl) = none)
    (hcmd : m.Commands (env.ToLower tl) = some handler) :
    [space].intercalate ((b :: tl) :: rest) = message.Content ∧
    (∀ t ∈ (b :: tl) :: rest, space ∉ t) ∧
    (m.Prefix.length = 1 → m.Prefix = [b]) ∧
    commandKey env (Split message.Content space) = some (env.ToLower tl) ∧
    (∀ effs σ', m.Handle env session message now σ = some (effs, σ') →
      ∀ e ∈ effs,
        (∀ h c, e = Effect.goHandle h c →
          c = ⟨m.Prefix, env.ToLower tl, rest, session, message⟩) ∧
        (∀ mw c, e = Effect.goMiddleware mw c →
          c = ⟨m.Prefix, env.ToLower tl, rest, session, message⟩)) ∧
    ((checkLimit handler.Settings message.AuthorID now σ).1 = true →
      m.permissions (env.ToLower tl) = none →
      m.Handle env session message now σ =
        some (m.Middleware.map (fun mw => Effect.goMiddleware mw
            ⟨m.Prefix, env.ToLower tl, rest, session, message⟩) ++
          [Effect.goHandle handler ⟨m.Prefix, env.ToLower tl, rest, session, message⟩],
          (checkLimit handler.Settings message.AuthorID now σ).2)) := by
  have hkey : commandKey env (Split message.Content space) = some (env.ToLower tl) := by
    rw [htok]; rfl
  have hH := Handle_of_passesFilters env m session message now σ hf
  rw [hkey] at hH
  simp only [hsimple, hcmd, htok, List.tail_cons] at hH
  refine ⟨?_, ?_, ?_, hkey, ?_, ?_⟩
  · rw [← htok]; exact Split_intercalate space _
  · rw [← htok]; exact Split_no_sep space _
  · intro hlen
    obtain ⟨r, hr⟩ := Split_head_cons space b tl rest _ htok
    have hp := hf.2.2.2.2.2
    simp only [HasPrefix, decide_eq_true_eq] at hp
    rw [hlen, hr] at hp
    simpa using hp.2.symm
  · intro effs σ' hres
    rw [hH] at hres
    have hmw : ∀ e ∈ m.Middleware.map (fun mw => Effect.goMiddleware mw
        (⟨m.Prefix, env.ToLower tl, rest, session, message⟩ : Context)),
        (∀ h c, e = Effect.goHandle h c →
          c = ⟨m.Prefix, env.ToLower tl, rest, session, message⟩) ∧
        (∀ mw c, e = Effect.goMiddleware mw c →
          c = ⟨m.Prefix, env.ToLower tl, rest, session, message⟩) := by
      intro e he
      obtain ⟨mw, _, rfl⟩ := List.mem_map.mp he
      simp
    by_cases hl : (checkLimit handler.Settings message.AuthorID now σ).1 = false
    · rw [if_pos hl] at hres
      simp only [Option.some.injEq, Prod.mk.injEq] at hres
      intro e he
      rw [← hres.1] at he
      simp at he
      subst he
      simp
    · rw [if_neg hl] at hres
      cases hp : m.permissions (env.ToLower tl) with
      | none =>
        simp only [hp, Option.some.injEq, Prod.mk.injEq] at hres
        intro e he
        rw [← hres.1] at he
        rcases List.mem_append.mp he with he | he
        · exact hmw e he
        · simp at he; subst he; simp
      | some p =>
        cases hg : env.GuildMember message.GuildID message.AuthorID with
        | none =>
          simp only [hp, hg, Option.some.injEq, Prod.mk.injEq] at hres
          intro e he
          rw [← hres.1] at he
          rcases List.mem_append.mp he with he | he
          · exact hmw e he
          · simp at he; rcases he with rfl | rfl <;> simp
        | some member =>
          by_cases hc : CheckPermissions env p member.UserID member.Roles message.ChannelID = false
          · simp only [hp, hg, hc, if_true, Option.some.injEq, Prod.mk.injEq] at hres
            intro e he
            rw [← hres.1] at he
            rcases List.mem_append.mp he with he | he
            · exact hmw e he
            · simp at he; rcases he with rfl | rfl <;> simp
          · have hc' : CheckPermissions env p member.UserID member.Roles message.ChannelID = true := by
              simpa using hc
            simp only [hp, hg, hc', Bool.true_eq_false, if_false, Option.some.injEq,
              Prod.mk.injEq] at hres
            intro e he
            rw [← hres.1] at he
            rcases List.mem_append.mp he with he | he
            · exact hmw e he
            · simp at he; rcases he with rfl | rfl <;> simp
  · intro hl hp
    rw [hH]
    simp [hl, hp]

/-- C9 on the message `!cmd a  b` (two spaces before `b`): the arguments are
`a`, the empty string and `b`. -/
theorem Handle_tokenizes_on_single_space_witness :
    ((newMux (str "!")).Register [demoCommand 1 (str "cmd")]).Handle demoEnv demoSession
        (demoMessage (str "!cmd a  b")) 0 emptyStores =
      some ([Effect.goHandle (demoCommand 1 (str "cmd"))
          ⟨str "!", asciiToLower (str "cmd"), [str "a", [], str "b"], demoSession,
            demoMessage (str "!cmd a  b")⟩],
        (checkLimit (demoCommand 1 (str "cmd")).Settings (str "u") 0 emptyStores).2) :=
  (Handle_tokenizes_on_single_space demoEnv
    ((newMux (str "!")).Register [demoCommand 1 (str "cmd")]) demoSession
    (demoMessage (str "!cmd a  b")) 0 emptyStores 33 (str "cmd") [str "a", [], str "b"]
    (demoCommand 1 (str "cmd")) (by unfold Mux.passesFilters; decide) (by decide) (by decide)
    (by decide)).2.2.2.2.2 (by decide) (by decide)

/-- C9 as stated fails on the content `!cmd  a`, with a run of two spaces and
a tab: the handler receives the arguments "" and `a<tab>b`, where splitting
on white space gives the arguments `a` and `b`. -/
theorem Handle_arguments_not_whitespace_tokens :
    (((newMux (str "!")).Register [demoCommand 1 (str "cmd")]).Handle demoEnv demoSession
        (demoMessage (str "!cmd  a\tb")) 0 emptyStores).map Prod.fst =
      some [Effect.goHandle (demoCommand 1 (str "cmd"))
        ⟨str "!", str "cmd", [[], str "a\tb"], demoSession, demoMessage (str "!cmd  a\tb")⟩] ∧
    (whitespaceTokens (str "!cmd  a\tb")).tail = [str "a", str "b"] := by
  decide

/-! ## Fuzzy suggestions -/

/-- The builder's loop appends to what was written before. -/
theorem suggestionLines_foldl (fzys : List GoString) :
    ∀ acc : GoString,
      fzys.foldl (fun sb fzy => sb ++ (str "- `!" ++ fzy ++ str "`\n")) acc =
        acc ++ suggestionLines fzys := by
  induction fzys with
  | nil => intro acc; simp [suggestionLines]
  | cons x xs ih =>
    intro acc
    simp only [suggestionLines, List.foldl_cons, List.nil_append]
    rw [ih (acc ++ (str "- `!" ++ x ++ str "`\n")), ih (str "- `!" ++ x ++ str "`\n")]
    simp [suggestionLines]

/-- The suggestion text is one line per candidate, in the matcher's order;
each line is a dash, a blank, a back quote, an exclamation mark, the candidate
name, a back quote and a line feed, whatever the prefix of the router is. -/
theorem suggestionLines_cons (x : GoString) (xs : List GoString) :
    suggestionLines (x :: xs) = str "- `!" ++ x ++ str "`\n" ++ suggestionLines xs := by
  simp only [suggestionLines, List.foldl_cons, List.nil_append]
  rw [suggestionLines_foldl xs (str "- `!" ++ x ++ str "`\n")]
  simp [suggestionLines]

/-- The suggestion text is empty exactly when there is no candidate. -/
theorem suggestionLines_length_eq_zero (fzys : List GoString) :
    (suggestionLines fzys).length = 0 ↔ fzys = [] := by
  cases fzys with
  | nil => simp [suggestionLines]
  | cons x xs =>
    rw [suggestionLines_cons]
    simp [str]

/-- On a full-command miss with fuzzy matching enabled, `Handle` sends one
reply: the suggestion text when the matcher returns candidates, the configured
not-found text when it returns none; nothing is dispatched. -/
theorem Handle_fuzzy_miss (env : Env) (m : Mux) (session : Session) (message : Message)
    (now : Int) (σ : Stores) (key : GoString)
    (hf : m.passesFilters session message)
    (hkey : commandKey env (Split message.Content space) = some key)
    (hsimple : m.SimpleCommands key = none) (hcmd : m.Commands key = none)
    (hfuzzy : m.fuzzyMatch = true) :
    (env.Find key m.commandNames ≠ [] →
      m.Handle env session message now σ =
        some ([Effect.ChannelMessageSend message.ChannelID
          (str "Command not found. Did you mean: \n" ++
            suggestionLines (env.Find key m.commandNames))], σ)) ∧
    (env.Find key m.commandNames = [] →
      m.Handle env session message now σ =
        some ([Effect.ChannelMessageSend message.ChannelID m.errorTexts.CommandNotFound], σ)) := by
  have hH := Handle_of_passesFilters env m session message now σ hf
  rw [hkey] at hH
  simp only [hsimple, hcmd, hfuzzy, if_true] at hH
  constructor
  · intro hne
    have : (suggestionLines (env.Find key m.commandNames)).length ≠ 0 :=
      fun h => hne ((suggestionLines_length_eq_zero _).mp h)
    rw [hH, if_pos this]
  · intro he
    have : ¬ (suggestionLines (env.Find key m.commandNames)).length ≠ 0 := by
      simp [(suggestionLines_length_eq_zero _).mpr he]
    rw [hH, if_neg this]

/-- C10, the failing input: on a router with prefix `?`, the command `example`
and fuzzy matching enabled, the message `?exmpl` is answered with a suggestion
whose bullet line shows the name behind an exclamation mark, not behind the
configured prefix. -/
theorem Handle_suggestion_ignores_configured_prefix :
    fuzzyMux.Prefix = str "?" ∧
    (fuzzyMux.Handle demoEnv demoSession (demoMessage (str "?exmpl")) 0 emptyStores).map Prod.fst =
      some [Effect.ChannelMessageSend (str "c")
        (str "Command not found. Did you mean: \n- `!example`\n")] := by
  decide

/-! ## The slice of the first token -/

/-- The command key is undefined (the slice `args[0][1:]` is out of range)
exactly when the content is empty or starts with a space. -/
theorem commandKey_eq_none_iff (env : Env) (s : GoString) :
    commandKey env (Split s space) = none ↔ s = [] ∨ ∃ r, s = space :: r := by
  cases s with
  | nil => simp [Split, commandKey]
  | cons c r =>
    unfold Split
    by_cases h : c = space
    · rw [if_pos h]
      simp [commandKey, h]
    · rw [if_neg h]
      cases hr : Split r space with
      | nil => simp [commandKey, h]
      | cons u us => simp [commandKey, h]

/-- A message dropped by one of the filters has no effect. -/
theorem Handle_of_not_passesFilters (env : Env) (m : Mux) (session : Session)
    (message : Message) (now : Int) (σ : Stores) (hf : ¬ m.passesFilters session message) :
    m.Handle env session message now σ = some ([], σ) := by
  unfold Mux.Handle
  by_cases h1 : message.AuthorID = session.StateUserID
  · rw [if_pos h1]
  rw [if_neg h1]
  by_cases h2 : m.options.IgnoreEmpty = true ∧ message.Content.length = 0
  · rw [if_pos h2]
  rw [if_neg h2]
  by_cases h3 : m.options.IgnoreNonDefault = true ∧ message.Type_ ≠ MessageTypeDefault
  · rw [if_pos h3]
  rw [if_neg h3]
  by_cases h4 : m.options.IgnoreBots = true ∧ message.AuthorBot = true
  · rw [if_pos h4]
  rw [if_neg h4]
  by_cases h5 : m.options.IgnoreDMs = true ∧ message.GuildID = []
  · rw [if_pos h5]
  rw [if_neg h5]
  by_cases h6 : HasPrefix message.Content m.Prefix = true
  · exact absurd ⟨h1, h2, h3, h4, h5, h6⟩ hf
  · rw [if_pos h6]

/-- Once the command key is defined, `Handle` runs to its end. -/
theorem Handle_isSome_of_commandKey (env : Env) (m : Mux) (session : Session)
    (message : Message) (now : Int) (σ : Stores) (key : GoString)
    (hf : m.passesFilters session message)
    (hkey : commandKey env (Split message.Content space) = some key) :
    ∃ r, m.Handle env session message now σ = some r := by
  rw [Handle_of_passesFilters env m session message now σ hf, hkey]
  dsimp only
  cases hs : m.SimpleCommands key with
  | some simple => exact ⟨_, rfl⟩
  | none =>
    cases hc : m.Commands key with
    | none =>
      by_cases hz : m.fuzzyMatch = true
      · by_cases hl : (suggestionLines (env.Find key m.commandNames)).length ≠ 0
        · simp only [hz, if_true, if_pos hl]; exact ⟨_, rfl⟩
        · simp only [hz, if_true, if_neg hl]; exact ⟨_, rfl⟩
      · simp only [hz]; exact ⟨_, rfl⟩
    | some handler =>
      by_cases hl : (checkLimit handler.Settings message.AuthorID now σ).1 = false
      · simp only [if_pos hl]; exact ⟨_, rfl⟩
      · simp only [if_neg hl]
        cases hp : m.permissions key with
        | none => exact ⟨_, rfl⟩
        | some p =>
          cases hg : env.GuildMember message.GuildID message.AuthorID with
          | none => exact ⟨_, rfl⟩
          | some member =>
            by_cases hc :
                CheckPermissions env p member.UserID member.Roles message.ChannelID = false
            · simp only [if_pos hc]; exact ⟨_, rfl⟩
            · simp only [if_neg hc]; exact ⟨_, rfl⟩

/-- The only panic of `Handle`: it fails exactly on a message that passes the
filters and whose content is empty or starts with a space, where the first
space-separated token is empty and `args[0][1:]` is out of range. -/
theorem Handle_eq_none_iff (env : Env) (m : Mux) (session : Session) (message : Message)
    (now : Int) (σ : Stores) :
    m.Handle env session message now σ = none ↔
      m.passesFilters session message ∧
        (message.Content = [] ∨ ∃ r, message.Content = space :: r) := by
  rw [← commandKey_eq_none_iff env message.Content]
  constructor
  · intro hnone
    by_cases hf : m.passesFilters session message
    · refine ⟨hf, ?_⟩
      cases hk : commandKey env (Split message.Content space) with
      | none => rfl
      | some key =>
        obtain ⟨r, hr⟩ := Handle_isSome_of_commandKey env m session message now σ key hf hk
        rw [hr] at hnone
        exact absurd hnone (by simp)
    · rw [Handle_of_not_passesFilters env m session message now σ hf] at hnone
      exact absurd hnone (by simp)
  · rintro ⟨hf, hk⟩
    rw [Handle_of_passesFilters env m session message now σ hf, hk]

/-- With a one-byte prefix other than the space character, the slice
`args[0][1:]` is in bounds for every message that passes the filters, and
`Handle` runs to its end. -/
theorem Handle_in_bounds_of_nonspace_prefix (env : Env) (m : Mux) (session : Session)
    (message : Message) (now : Int) (σ : Stores) (b : UInt8)
    (hpfx : m.Prefix = [b]) (hb : b ≠ space) (hf : m.passesFilters session message) :
    (∃ key, commandKey env (Split message.Content space) = some key) ∧
    ∃ r, m.Handle env session message now σ = some r := by
  have hp := hf.2.2.2.2.2
  simp only [HasPrefix, decide_eq_true_eq, hpfx, List.length_singleton] at hp
  have hkey : ∃ key, commandKey env (Split message.Content space) = some key := by
    cases hk : commandKey env (Split message.Content space) with
    | some key => exact ⟨key, rfl⟩
    | none =>
      exfalso
      rcases (commandKey_eq_none_iff env _).mp hk with h | ⟨r, h⟩
      · rw [h] at hp; simp at hp
      · rw [h] at hp
        simp at hp
        exact hb hp.symm
  obtain ⟨key, hk⟩ := hkey
  exact ⟨⟨key, hk⟩, Handle_isSome_of_commandKey env m session message now σ key hf hk⟩

/-- C11, the failing inputs: `New` accepts the prefix made of one space and the
empty prefix; on the first router the message with content " x", on the second
(with `IgnoreEmpty` switched off) the message with empty content, passes every
filter, the prefix test included, and `Handle` fails on `args[0][1:]` because
the first space-separated token is empty. -/
theorem Handle_slice_out_of_range :
    New (str " ") = Except.ok spaceMux ∧
    spaceMux.passesFilters demoSession (demoMessage (str " x")) ∧
    Split (str " x") space = [[], str "x"] ∧
    spaceMux.Handle demoEnv demoSession (demoMessage (str " x")) 0 emptyStores = none ∧
    (New []).map (fun m => m.SetOptions ⟨true, true, false, true⟩) = Except.ok emptyPrefixMux ∧
    emptyPrefixMux.passesFilters demoSession (demoMessage []) ∧
    Split [] space = [[]] ∧
    emptyPrefixMux.Handle demoEnv demoSession (demoMessage []) 0 emptyStores = none := by
  refine ⟨rfl, by unfold Mux.passesFilters; decide, by decide, rfl, rfl,
    by unfold Mux.passesFilters; decide, by decide, rfl⟩

/-! ## Simple commands -/

/-- C5 (as amended): a message that passes the filters and whose command key
as `Handle` computes it (the first piece of the content split at single
spaces, without its first byte, lower-cased) names an entry of the
simple-command table makes `Handle` send that entry's content, unchanged, to
the channel of the message, as its only effect; the rate-limit stores are left
as they were, whatever commands, limiters, permissions and middleware the
router holds. When the prefix is one byte, that key is the first
space-separated piece with the prefix removed, lower-cased. -/
theorem Handle_simple_command (env : Env) (m : Mux) (session : Session) (message : Message)
    (now : Int) (σ : Stores) (key : GoString) (simple : SimpleCommand)
    (hf : m.passesFilters session message)
    (hkey : commandKey env (Split message.Content space) = some key)
    (hsimple : m.SimpleCommands key = some simple) :
    m.Handle env session message now σ =
      some ([Effect.ChannelMessageSend message.ChannelID simple.Content], σ) ∧
    (m.Prefix.length = 1 →
      ∃ name rest, Split message.Content space = (m.Prefix ++ name) :: rest ∧
        key = env.ToLower name) := by
  constructor
  · rw [Handle_of_passesFilters env m session message now σ hf, hkey]
    simp only [hsimple]
  · intro hlen
    cases hs : Split message.Content space with
    | nil => rw [hs] at hkey; simp [commandKey] at hkey
    | cons arg0 rest =>
      cases arg0 with
      | nil => rw [hs] at hkey; simp [commandKey] at hkey
      | cons b tl =>
        rw [hs] at hkey
        simp only [commandKey, Option.some.injEq] at hkey
        obtain ⟨r, hr⟩ := Split_head_cons space b tl rest _ hs
        have hp := hf.2.2.2.2.2
        simp only [HasPrefix, decide_eq_true_eq] at hp
        rw [hlen, hr] at hp
        have hpfx : m.Prefix = [b] := by simpa using hp.2.symm
        exact ⟨tl, rest, by rw [hpfx]; rfl, hkey.symm⟩

/-- C5 on a router where `hi` is both a simple command and a rate-limited,
permission-restricted full command: the message `!hi there` is answered with
the simple command's content and nothing else happens. -/
theorem Handle_simple_command_witness :
    shadowedMux.Handle demoEnv demoSession (demoMessage (str "!hi there")) 0 emptyStores =
      some ([Effect.ChannelMessageSend (str "c") (str "hello there")], emptyStores) :=
  (Handle_simple_command demoEnv shadowedMux demoSession (demoMessage (str "!hi there")) 0
    emptyStores (str "hi") hiSimple
    (by unfold Mux.passesFilters; decide) (by decide) (by decide)).1

/-- C5 as stated fails where the key of the specification is not the key
`Handle` computes. With the empty prefix, which `New` accepts, and the simple
command `hi`, the message `hi` passes the filters and its first token without
the prefix is `hi`, yet `Handle` looks up `i` and answers "Command not
found.". With the prefix `!` the same happens for the content `!hi`, a line
feed, `there`: the first white-space token without the prefix is `hi`, and
`Handle` looks up everything up to the first space. -/
theorem Handle_simple_command_key_mismatch :
    New [] = Except.ok (newMux []) ∧
    ((newMux []).RegisterSimple [hiSimple]).passesFilters demoSession (demoMessage (str "hi")) ∧
    claimedCommandKey demoEnv ((newMux []).RegisterSimple [hiSimple]).Prefix (str "hi") =
      some (str "hi") ∧
    ((newMux []).RegisterSimple [hiSimple]).SimpleCommands (str "hi") = some hiSimple ∧
    (((newMux []).RegisterSimple [hiSimple]).Handle demoEnv demoSession (demoMessage (str "hi"))
        0 emptyStores).map Prod.fst =
      some [Effect.ChannelMessageSend (str "c") (str "Command not found.")] ∧
    ((newMux (str "!")).RegisterSimple [hiSimple]).passesFilters demoSession
      (demoMessage (str "!hi\nthere")) ∧
    claimedCommandKey demoEnv ((newMux (str "!")).RegisterSimple [hiSimple]).Prefix
      (str "!hi\nthere") = some (str "hi") ∧
    ((newMux (str "!")).RegisterSimple [hiSimple]).SimpleCommands (str "hi") = some hiSimple ∧
    (((newMux (str "!")).RegisterSimple [hiSimple]).Handle demoEnv demoSession
        (demoMessage (str "!hi\nthere")) 0 emptyStores).map Prod.fst =
      some [Effect.ChannelMessageSend (str "c") (str "Command not found.")] := by
  refine ⟨rfl, by unfold Mux.passesFilters; decide, by decide, by decide, by decide,
    by unfold Mux.passesFilters; decide, by decide, by decide, by decide⟩

end Multiplexer
